import Mathlib

/-!
# Ambulance waiting list: reconciliation and document store

A shallow embedding of

* `reconcileWaitingList` (`internal/ambulance_wl/api_ambulances.go`), the pass that
  re-estimates the start times of a waiting list, and
* the CRUD methods of `mongoSvc` (`internal/db_service/mongo_svc.go`) over a collection of
  stored documents,

followed by theorems about them.

Conventions of the embedding:

* a `time.Time` is an integer number of nanoseconds on the time line (`Time`), so
  `a.Before(b)` is `a < b`, `a.After(b)` is `b < a` and `t.Add(d)` is `t + d`;
* a `time.Duration` is a signed 64-bit number of nanoseconds, and the product
  `time.Duration(m) * time.Minute` wraps around like Go's `int64` multiplication;
* a Go slice is a `List`; a run-time panic is the `error` case of `Except`;
* `time.Now()` is an input of the model.  The source reads the clock twice (in the test and
  in the assignment that follows it), so the general model `reconcileRun` takes both readings;
  `reconcileWaitingList now` is the run in which both readings are the moment `now`.
-/

namespace AmbulanceWl

/-- A point on the time line, in nanoseconds (Go `time.Time`). -/
abbrev Time := Int

/-- Modelled from the spec: the declaration of `WaitingListEntry` is not among the source
files; the fields are those of the data model (section 3), with the names the code uses for
the three fields it reads. -/
structure WaitingListEntry where
  Id : String
  PatientId : String
  WaitingSince : Time
  EstimatedStart : Time
  EstimatedDurationMinutes : Int
  ConditionCode : String
  deriving DecidableEq, Repr

/-- Reduction of an integer to the signed 64-bit range (Go `int64` wrap-around). -/
def wrapInt64 (n : Int) : Int := (n + 2 ^ 63) % 2 ^ 64 - 2 ^ 63

/-- The constant `time.Minute`: nanoseconds in a minute. -/
def Minute : Int := 60000000000

/-- The expression `time.Duration(m) * time.Minute`. -/
def minutesDuration (m : Int) : Int := wrapInt64 (m * Minute)

/-- The comparator literal handed to `slices.SortFunc` (lines 170-178). -/
def cmpWaitingSince (left right : WaitingListEntry) : Int :=
  if left.WaitingSince < right.WaitingSince then -1
  else if right.WaitingSince < left.WaitingSince then 1
  else 0

/-- Inner loop of the insertion sort behind `slices.SortFunc`:
`for j := i; j > a && cmp(data[j], data[j-1]) < 0; j-- { swap }`.
The already ordered prefix `data[a:i]` is held nearest element first; `x` is `data[i]`. -/
def sinkLeft {α : Type} (cmp : α → α → Int) (x : α) : List α → List α
  | [] => [x]
  | y :: before => if cmp x y < 0 then y :: sinkLeft cmp x before else x :: y :: before

/-- Go's `slices.SortFunc` is library code; it is modelled by its insertion-sort routine,
which is the whole algorithm for slices of at most 12 elements.  The theorems below use only
these facts about it: the result is a permutation of the input, it is ordered by the
comparator, and the same input gives the same result. -/
def sortFunc {α : Type} (cmp : α → α → Int) (data : List α) : List α :=
  (data.foldl (fun before x => sinkLeft cmp x before) []).reverse

/-- Lines 184-190: the two guarded assignments to `WaitingList[0].EstimatedStart`.
`now₁` is the clock reading of the test, `now₂` the reading that is assigned. -/
def clampFirst (now₁ now₂ : Time) (first : WaitingListEntry) : WaitingListEntry :=
  let first :=
    if first.EstimatedStart < first.WaitingSince then
      { first with EstimatedStart := first.WaitingSince }
    else first
  if first.EstimatedStart < now₁ then { first with EstimatedStart := now₂ } else first

/-- Body of the loop of lines 193-202, run on the loop variable `entry`.  In
`for _, entry := range this.WaitingList[1:]` the variable is a copy of the slice element, so
the assignments of the body change the copy.  Returns the copy as it is at the end of the
body together with the new `nextEntryStart`. -/
def loopBody (nextEntryStart : Time) (entry : WaitingListEntry) : WaitingListEntry × Time :=
  let entry :=
    if entry.EstimatedStart < nextEntryStart then
      { entry with EstimatedStart := nextEntryStart }
    else entry
  let entry :=
    if entry.EstimatedStart < entry.WaitingSince then
      { entry with EstimatedStart := entry.WaitingSince }
    else entry
  (entry, entry.EstimatedStart + minutesDuration entry.EstimatedDurationMinutes)

/-- The loop of lines 193-202 over `WaitingList[1:]`: threads `nextEntryStart` through the
iterations and collects the value of the loop variable at the end of each one.  Nothing is
stored into the slice. -/
def rangeLoop : Time → List WaitingListEntry → List WaitingListEntry × Time
  | nextEntryStart, [] => ([], nextEntryStart)
  | nextEntryStart, entry :: rest =>
    let step := loopBody nextEntryStart entry
    let tail := rangeLoop step.2 rest
    (step.1 :: tail.1, tail.2)

/-- Run-time panics of the embedded code. -/
inductive RuntimePanic where
  /-- Message `index out of range [index] with length length`. -/
  | indexOutOfRange (index length : Nat)
  deriving DecidableEq, Repr

/-- Everything a run of `reconcileWaitingList` computes: the waiting list it leaves in the
ambulance, the values the loop variable took (one per entry of `WaitingList[1:]`), and the
final `nextEntryStart`. -/
structure ReconcileRun where
  WaitingList : List WaitingListEntry
  loopEntries : List WaitingListEntry
  nextEntryStart : Time
  deriving DecidableEq, Repr

/-- The method `reconcileWaitingList` (lines 169-203) with the two clock readings as inputs.
Indexing `WaitingList[0]` of an empty slice panics. -/
def reconcileRun (now₁ now₂ : Time) (waitingList : List WaitingListEntry) :
    Except RuntimePanic ReconcileRun :=
  match sortFunc cmpWaitingSince waitingList with
  | [] => .error (.indexOutOfRange 0 0)
  | first :: rest =>
    let first := clampFirst now₁ now₂ first
    let nextEntryStart := first.EstimatedStart + minutesDuration first.EstimatedDurationMinutes
    let loop := rangeLoop nextEntryStart rest
    .ok { WaitingList := first :: rest, loopEntries := loop.1, nextEntryStart := loop.2 }

/-- The waiting list of the ambulance after `reconcileWaitingList` ran at the moment `now`. -/
def reconcileWaitingList (now : Time) (waitingList : List WaitingListEntry) :
    Except RuntimePanic (List WaitingListEntry) :=
  match reconcileRun now now waitingList with
  | .error p => .error p
  | .ok run => .ok run.WaitingList

/-- An entry with its `EstimatedStart` blanked: what is left when that field is ignored. -/
def eraseEstimatedStart (e : WaitingListEntry) : WaitingListEntry :=
  { e with EstimatedStart := 0 }

/-- The cursor after an entry: its `EstimatedStart` plus its duration. -/
def cursorAfter (e : WaitingListEntry) : Time :=
  e.EstimatedStart + minutesDuration e.EstimatedDurationMinutes

/-- The ordered prefix, nearest element first, is descending by `WaitingSince`. -/
def Descending (l : List WaitingListEntry) : Prop :=
  l.Pairwise (fun a b => b.WaitingSince ≤ a.WaitingSince)

/-- The schedule invariant in the words of the spec: every entry starts no earlier than it
arrived, and every entry after the first starts no earlier than the previous entry's start
plus the previous entry's duration in minutes. -/
def ScheduleInvariant (l : List WaitingListEntry) : Prop :=
  (∀ e ∈ l, e.WaitingSince ≤ e.EstimatedStart) ∧
  l.Chain' (fun prev e =>
    prev.EstimatedStart + prev.EstimatedDurationMinutes * Minute ≤ e.EstimatedStart)

/-- The cursor rule in the words of the spec: every entry after the first starts at
`max(cursor, WaitingSince)`, the cursor being the previous entry's start plus the previous
entry's duration in minutes. -/
def CursorRule (l : List WaitingListEntry) : Prop :=
  l.Chain' (fun prev e =>
    e.EstimatedStart
      = max (prev.EstimatedStart + prev.EstimatedDurationMinutes * Minute) e.WaitingSince)

/-- A sample moment `t0`: 2023-11-14T22:13:20Z in nanoseconds since the Unix epoch. -/
def t0 : Time := 1700000000000000000

/-- Sample entry A: arrived at `t0`, estimated to start at `t0`, 30 minutes. -/
def entryA : WaitingListEntry :=
  { Id := "A", PatientId := "patient-a", WaitingSince := t0, EstimatedStart := t0,
    EstimatedDurationMinutes := 30, ConditionCode := "follow-up" }

/-- Sample entry B: arrived at `t0 + 5m`, estimated to start on arrival, 20 minutes. -/
def entryB : WaitingListEntry :=
  { Id := "B", PatientId := "patient-b", WaitingSince := t0 + 5 * Minute,
    EstimatedStart := t0 + 5 * Minute, EstimatedDurationMinutes := 20,
    ConditionCode := "nausea" }

/-- Sample entry C: arrived at `t0 + 10m` with a stale estimate `t0`, 15 minutes. -/
def entryC : WaitingListEntry :=
  { Id := "C", PatientId := "patient-c", WaitingSince := t0 + 10 * Minute,
    EstimatedStart := t0, EstimatedDurationMinutes := 15, ConditionCode := "fever" }

/-- Sample entry B with an earlier estimate of `t0 + 2h` on record. -/
def entryBLate : WaitingListEntry :=
  { entryB with EstimatedStart := t0 + 120 * Minute }

/-- Modelled from the spec: the declaration of `Ambulance` is not among the source files;
the aggregate of section 3 with its identifier, name, room number and waiting list. -/
structure Ambulance where
  Id : String
  Name : String
  RoomNumber : String
  WaitingList : List WaitingListEntry
  deriving DecidableEq, Repr

/-- Sample ambulance stored under the identifier `amb-1`, with two waiting entries. -/
def ambulanceOne : Ambulance :=
  { Id := "amb-1", Name := "General practice", RoomNumber := "101",
    WaitingList := [entryA, entryB] }

/-- Sample ambulance whose own identifier is `amb-2`. -/
def ambulanceTwo : Ambulance :=
  { Id := "amb-2", Name := "Dental care", RoomNumber := "202", WaitingList := [] }

/-- Sample entry whose `WaitingSince` lies one nanosecond after the whole millisecond `t0`. -/
def entryFine : WaitingListEntry :=
  { Id := "F", PatientId := "patient-f", WaitingSince := t0 + 1, EstimatedStart := t0,
    EstimatedDurationMinutes := 10, ConditionCode := "fever" }

/-- Sample ambulance `amb-3` holding the entry with the sub-millisecond timestamp. -/
def ambulanceThree : Ambulance :=
  { Id := "amb-3", Name := "Cardiology", RoomNumber := "303", WaitingList := [entryFine] }

end AmbulanceWl

namespace DbService

open AmbulanceWl

/-!
The collection is the list of the stored (BSON) documents, oldest first.  The store is
generic in the document type `D`; the three things the driver does with a document are
inputs of the model: `encode` turns a value of `D` into the stored document (`InsertOne`,
`ReplaceOne`), `decode` turns a stored document back into a value of `D` (`result.Decode`),
and `idOf` reads the `"id"` field of a stored document, the key of every filter
`bson.D{{Key: "id", Value: id}}`.  The backend works: `connect` succeeds and no driver call
fails for a reason of transport, deadline or decoding, so the only error results are
`mongo.ErrNoDocuments` inside the driver and the two sentinel errors of the package.

For the document type `Ambulance` the codec is given below.  The driver is library code; what
is modelled of it is that strings and integers are stored as they are and that a `time.Time`
is stored as a BSON datetime, a signed 64-bit count of milliseconds since the Unix epoch,
and read back as the instant of that millisecond (in UTC; a `Time` of this embedding is an
instant, so the location does not appear).
-/

/-- The sentinel errors `ErrNotFound` and `ErrConflict` (lines 27-28). -/
inductive StoreError where
  | ErrNotFound
  | ErrConflict
  deriving DecidableEq, Repr

/-- Encoding of a `time.Time` as a BSON datetime: `t.Unix()*1e3 + int64(t.Nanosecond())/1e6`
in 64-bit arithmetic. -/
def encodeTime (t : Int) : Int :=
  wrapInt64 (t / 1000000000 * 1000 + t % 1000000000 / 1000000)

/-- Decoding of a BSON datetime: the instant `ms` milliseconds after the Unix epoch. -/
def decodeTime (ms : Int) : Int := ms * 1000000

/-- A waiting list entry as stored: the two timestamps are BSON datetimes. -/
structure StoredEntry where
  Id : String
  PatientId : String
  WaitingSince : Int
  EstimatedStart : Int
  EstimatedDurationMinutes : Int
  ConditionCode : String
  deriving DecidableEq, Repr

/-- An ambulance as stored, with its `"id"` field. -/
structure StoredAmbulance where
  Id : String
  Name : String
  RoomNumber : String
  WaitingList : List StoredEntry
  deriving DecidableEq, Repr

/-- Encoding of a waiting list entry. -/
def encodeEntry (e : WaitingListEntry) : StoredEntry :=
  { Id := e.Id, PatientId := e.PatientId, WaitingSince := encodeTime e.WaitingSince,
    EstimatedStart := encodeTime e.EstimatedStart,
    EstimatedDurationMinutes := e.EstimatedDurationMinutes, ConditionCode := e.ConditionCode }

/-- Decoding of a stored waiting list entry. -/
def decodeEntry (e : StoredEntry) : WaitingListEntry :=
  { Id := e.Id, PatientId := e.PatientId, WaitingSince := decodeTime e.WaitingSince,
    EstimatedStart := decodeTime e.EstimatedStart,
    EstimatedDurationMinutes := e.EstimatedDurationMinutes, ConditionCode := e.ConditionCode }

/-- Encoding of an ambulance. -/
def encodeAmbulance (a : Ambulance) : StoredAmbulance :=
  { Id := a.Id, Name := a.Name, RoomNumber := a.RoomNumber,
    WaitingList := a.WaitingList.map encodeEntry }

/-- Decoding of a stored ambulance. -/
def decodeAmbulance (a : StoredAmbulance) : Ambulance :=
  { Id := a.Id, Name := a.Name, RoomNumber := a.RoomNumber,
    WaitingList := a.WaitingList.map decodeEntry }

/-- A time that a BSON datetime holds exactly: a whole number of milliseconds, within the
64-bit range of the millisecond count. -/
def BsonExact (t : Int) : Prop :=
  t % 1000000 = 0 ∧ -2 ^ 63 ≤ t / 1000000 ∧ t / 1000000 < 2 ^ 63

/-- Every timestamp of the ambulance is one a BSON datetime holds exactly. -/
def WholeMillis (a : Ambulance) : Prop :=
  ∀ e ∈ a.WaitingList, BsonExact e.WaitingSince ∧ BsonExact e.EstimatedStart

/-- Driver call `collection.FindOne(ctx, bson.D{{Key: "id", Value: id}})`: the first stored
document whose `"id"` field is `id`; `none` stands for `mongo.ErrNoDocuments`. -/
def findOne {B : Type} (idOf : B → String) (coll : List B) (id : String) : Option B :=
  coll.find? (fun d => idOf d == id)

/-- Driver call `collection.InsertOne(ctx, document)`: the encoding of the document is added
to the collection. -/
def insertOne {D B : Type} (encode : D → B) (coll : List B) (document : D) : List B :=
  coll ++ [encode document]

/-- Driver call `collection.ReplaceOne(ctx, bson.D{{Key: "id", Value: id}}, document)`:
the first stored document whose `"id"` field is `id` is replaced by the encoding of
`document`. -/
def replaceOne {D B : Type} (encode : D → B) (idOf : B → String) : List B → String → D → List B
  | [], _, _ => []
  | d :: ds, id, document =>
    if idOf d = id then encode document :: ds else d :: replaceOne encode idOf ds id document

/-- Driver call `collection.DeleteOne(ctx, bson.D{{Key: "id", Value: id}})`: the first
stored document whose `"id"` field is `id` is removed. -/
def deleteOne {B : Type} (idOf : B → String) : List B → String → List B
  | [], _ => []
  | d :: ds, id => if idOf d = id then ds else d :: deleteOne idOf ds id

/-- The method `CreateDocument` (lines 149-169): the returned `error` (`none` is `nil`) and
the collection afterwards. -/
def CreateDocument {D B : Type} (encode : D → B) (idOf : B → String) (coll : List B)
    (id : String) (document : D) : Option StoreError × List B :=
  match findOne idOf coll id with
  | some _ => (some .ErrConflict, coll)
  | none => (none, insertOne encode coll document)

/-- The method `FindDocument` (lines 171-192): the returned document or error, and the
collection afterwards. -/
def FindDocument {D B : Type} (decode : B → D) (idOf : B → String) (coll : List B)
    (id : String) : Except StoreError D × List B :=
  match findOne idOf coll id with
  | none => (.error .ErrNotFound, coll)
  | some stored => (.ok (decode stored), coll)

/-- The method `UpdateDocument` (lines 194-212). -/
def UpdateDocument {D B : Type} (encode : D → B) (idOf : B → String) (coll : List B)
    (id : String) (document : D) : Option StoreError × List B :=
  match findOne idOf coll id with
  | none => (some .ErrNotFound, coll)
  | some _ => (none, replaceOne encode idOf coll id document)

/-- The method `DeleteDocument` (lines 214-232). -/
def DeleteDocument {B : Type} (idOf : B → String) (coll : List B) (id : String) :
    Option StoreError × List B :=
  match findOne idOf coll id with
  | none => (some .ErrNotFound, coll)
  | some _ => (none, deleteOne idOf coll id)

end DbService

namespace AmbulanceWl

/-! ## Facts about the sort -/

theorem sinkLeft_perm {α : Type} (cmp : α → α → Int) (x : α) (l : List α) :
    (sinkLeft cmp x l).Perm (x :: l) := by
  induction l with
  | nil => exact List.Perm.refl _
  | cons y before ih =>
    unfold sinkLeft
    split
    · exact (List.Perm.cons y ih).trans (List.Perm.swap x y before)
    · exact List.Perm.refl _

theorem foldl_sinkLeft_perm {α : Type} (cmp : α → α → Int) (data before : List α) :
    (data.foldl (fun before x => sinkLeft cmp x before) before).Perm (data ++ before) := by
  induction data generalizing before with
  | nil => exact List.Perm.refl _
  | cons x data ih =>
    simp only [List.foldl_cons, List.cons_append]
    refine (ih (sinkLeft cmp x before)).trans ?_
    refine (List.Perm.append_left data (sinkLeft_perm cmp x before)).trans ?_
    exact List.perm_middle

theorem sortFunc_perm {α : Type} (cmp : α → α → Int) (data : List α) :
    (sortFunc cmp data).Perm data := by
  unfold sortFunc
  refine (List.reverse_perm _).trans ?_
  simpa using foldl_sinkLeft_perm cmp data []

theorem cmpWaitingSince_neg_iff (x y : WaitingListEntry) :
    cmpWaitingSince x y < 0 ↔ x.WaitingSince < y.WaitingSince := by
  unfold cmpWaitingSince
  split
  · simp [*]
  · split <;> simp [*]

theorem sinkLeft_descending (x : WaitingListEntry) (l : List WaitingListEntry)
    (h : Descending l) : Descending (sinkLeft cmpWaitingSince x l) := by
  induction l with
  | nil => simp [sinkLeft, Descending]
  | cons y before ih =>
    unfold Descending at h
    rw [List.pairwise_cons] at h
    unfold sinkLeft
    by_cases hc : cmpWaitingSince x y < 0
    · rw [if_pos hc]
      have hxy := (cmpWaitingSince_neg_iff x y).1 hc
      unfold Descending
      rw [List.pairwise_cons]
      refine ⟨?_, ih h.2⟩
      intro b hb
      rcases List.mem_cons.1 ((sinkLeft_perm cmpWaitingSince x before).mem_iff.1 hb) with hbx | hbb
      · subst hbx; exact le_of_lt hxy
      · exact h.1 b hbb
    · rw [if_neg hc]
      have hxy : y.WaitingSince ≤ x.WaitingSince :=
        not_lt.1 (fun hlt => hc ((cmpWaitingSince_neg_iff x y).2 hlt))
      unfold Descending
      rw [List.pairwise_cons, List.pairwise_cons]
      refine ⟨?_, h.1, h.2⟩
      intro b hb
      rcases List.mem_cons.1 hb with hby | hbb
      · subst hby; exact hxy
      · exact le_trans (h.1 b hbb) hxy

theorem foldl_sinkLeft_descending (data before : List WaitingListEntry)
    (h : Descending before) :
    Descending (data.foldl (fun before x => sinkLeft cmpWaitingSince x before) before) := by
  induction data generalizing before with
  | nil => exact h
  | cons x data ih => exact ih _ (sinkLeft_descending x before h)

theorem sortFunc_sorted (data : List WaitingListEntry) :
    (sortFunc cmpWaitingSince data).Pairwise (fun a b => a.WaitingSince ≤ b.WaitingSince) := by
  unfold sortFunc
  rw [List.pairwise_reverse]
  exact foldl_sinkLeft_descending data [] List.Pairwise.nil

theorem sortFunc_cons_exists (e : WaitingListEntry) (es : List WaitingListEntry) :
    ∃ first rest, sortFunc cmpWaitingSince (e :: es) = first :: rest := by
  cases h : sortFunc cmpWaitingSince (e :: es) with
  | nil =>
    have hl := (sortFunc_perm cmpWaitingSince (e :: es)).length_eq
    rw [h] at hl
    simp at hl
  | cons first rest => exact ⟨first, rest, rfl⟩

/-! ## Facts about the reconciliation pass -/

theorem clampFirst_estimatedStart (now : Time) (first : WaitingListEntry) :
    (clampFirst now now first).EstimatedStart
      = max (max first.EstimatedStart first.WaitingSince) now := by
  unfold clampFirst
  by_cases h1 : first.EstimatedStart < first.WaitingSince
  · by_cases h2 : first.WaitingSince < now
    · simp [h1, h2, max_eq_right (le_of_lt h1), max_eq_right (le_of_lt h2)]
    · simp [h1, h2, max_eq_right (le_of_lt h1), max_eq_left (not_lt.1 h2)]
  · by_cases h2 : first.EstimatedStart < now
    · simp [h1, h2, max_eq_left (not_lt.1 h1), max_eq_right (le_of_lt h2)]
    · simp [h1, h2, max_eq_left (not_lt.1 h1), max_eq_left (not_lt.1 h2)]

theorem clampFirst_erase (now₁ now₂ : Time) (first : WaitingListEntry) :
    eraseEstimatedStart (clampFirst now₁ now₂ first) = eraseEstimatedStart first := by
  unfold clampFirst eraseEstimatedStart
  by_cases h1 : first.EstimatedStart < first.WaitingSince <;>
    by_cases h2 : first.EstimatedStart < now₁ <;>
    by_cases h3 : first.WaitingSince < now₁ <;> simp [h1, h2, h3]

theorem reconcileRun_of_sorted (now₁ now₂ : Time) (waitingList : List WaitingListEntry)
    (first : WaitingListEntry) (rest : List WaitingListEntry)
    (h : sortFunc cmpWaitingSince waitingList = first :: rest) :
    reconcileRun now₁ now₂ waitingList = .ok
      { WaitingList := clampFirst now₁ now₂ first :: rest
        loopEntries := (rangeLoop (cursorAfter (clampFirst now₁ now₂ first)) rest).1
        nextEntryStart := (rangeLoop (cursorAfter (clampFirst now₁ now₂ first)) rest).2 } := by
  unfold reconcileRun
  rw [h]
  rfl

theorem reconcileWaitingList_of_sorted (now : Time) (waitingList : List WaitingListEntry)
    (first : WaitingListEntry) (rest : List WaitingListEntry)
    (h : sortFunc cmpWaitingSince waitingList = first :: rest) :
    reconcileWaitingList now waitingList = .ok (clampFirst now now first :: rest) := by
  unfold reconcileWaitingList
  rw [reconcileRun_of_sorted now now waitingList first rest h]

theorem clampFirst_waitingSince (now₁ now₂ : Time) (first : WaitingListEntry) :
    (clampFirst now₁ now₂ first).WaitingSince = first.WaitingSince := by
  have h := congrArg WaitingListEntry.WaitingSince (clampFirst_erase now₁ now₂ first)
  simpa [eraseEstimatedStart] using h

theorem clampFirst_mono (now₁ now₂ : Time) (h : now₁ ≤ now₂) (first : WaitingListEntry) :
    (clampFirst now₁ now₁ first).EstimatedStart ≤ (clampFirst now₂ now₂ first).EstimatedStart := by
  rw [clampFirst_estimatedStart, clampFirst_estimatedStart]
  exact max_le_max (le_refl _) h

theorem loopBody_estimatedStart (nextEntryStart : Time) (entry : WaitingListEntry) :
    (loopBody nextEntryStart entry).1.EstimatedStart
      = max (max entry.EstimatedStart nextEntryStart) entry.WaitingSince := by
  unfold loopBody
  by_cases h1 : entry.EstimatedStart < nextEntryStart
  · by_cases h2 : nextEntryStart < entry.WaitingSince
    · simp [h1, h2, max_eq_right (le_of_lt h1), max_eq_right (le_of_lt h2)]
    · simp [h1, h2, max_eq_right (le_of_lt h1), max_eq_left (not_lt.1 h2)]
  · by_cases h2 : entry.EstimatedStart < entry.WaitingSince
    · simp [h1, h2, max_eq_left (not_lt.1 h1), max_eq_right (le_of_lt h2)]
    · simp [h1, h2, max_eq_left (not_lt.1 h1), max_eq_left (not_lt.1 h2)]

theorem loopBody_erase (nextEntryStart : Time) (entry : WaitingListEntry) :
    eraseEstimatedStart (loopBody nextEntryStart entry).1 = eraseEstimatedStart entry := by
  unfold loopBody eraseEstimatedStart
  by_cases h1 : entry.EstimatedStart < nextEntryStart <;>
    by_cases h2 : entry.EstimatedStart < entry.WaitingSince <;>
    by_cases h3 : nextEntryStart < entry.WaitingSince <;> simp [h1, h2, h3]

theorem rangeLoop_spec (rest : List WaitingListEntry) (prev : WaitingListEntry) :
    (rangeLoop (cursorAfter prev) rest).1.length = rest.length ∧
    ∀ (i : Nat) (p entry : WaitingListEntry),
      (prev :: (rangeLoop (cursorAfter prev) rest).1)[i]? = some p → rest[i]? = some entry →
      ∃ c, (rangeLoop (cursorAfter prev) rest).1[i]? = some c ∧
        c.EstimatedStart
          = max (max entry.EstimatedStart (cursorAfter p)) entry.WaitingSince ∧
        eraseEstimatedStart c = eraseEstimatedStart entry := by
  induction rest generalizing prev with
  | nil =>
    refine ⟨rfl, ?_⟩
    intro i p entry _ h
    simp at h
  | cons e0 rest ih =>
    have hstep : rangeLoop (cursorAfter prev) (e0 :: rest)
        = ((loopBody (cursorAfter prev) e0).1 ::
            (rangeLoop (cursorAfter (loopBody (cursorAfter prev) e0).1) rest).1,
           (rangeLoop (cursorAfter (loopBody (cursorAfter prev) e0).1) rest).2) := rfl
    rw [hstep]
    obtain ⟨hlen, hall⟩ := ih (loopBody (cursorAfter prev) e0).1
    refine ⟨by simp [hlen], ?_⟩
    intro i p entry hp he
    cases i with
    | zero =>
      simp only [List.getElem?_cons_zero, Option.some.injEq] at hp he
      subst hp; subst he
      exact ⟨(loopBody (cursorAfter prev) e0).1, by simp,
        loopBody_estimatedStart _ _, loopBody_erase _ _⟩
    | succ i =>
      simp only [List.getElem?_cons_succ] at hp he ⊢
      exact hall i p entry hp he

/-! ## The claims about `reconcileWaitingList` -/

/-- C1 (the code breaks it): on the list A (arrived `t0`, start `t0`, 30 min), B (arrived
`t0+5m`, start `t0+5m`, 20 min), C (arrived `t0+10m`, stale start `t0`, 15 min) reconciled
at `t0`, the pass returns the list with no start changed, and that list violates the
schedule invariant: C starts before it arrived and B starts before A's start plus 30
minutes. -/
theorem c1_schedule_invariant_broken :
    reconcileWaitingList t0 [entryA, entryB, entryC] = .ok [entryA, entryB, entryC] ∧
    entryC.EstimatedStart < entryC.WaitingSince ∧
    entryB.EstimatedStart < entryA.EstimatedStart + entryA.EstimatedDurationMinutes * Minute ∧
    ¬ ScheduleInvariant [entryA, entryB, entryC] := by
  refine ⟨rfl, by decide, by decide, ?_⟩
  intro h
  have hC := h.1 entryC (by simp)
  exact absurd hC (by decide)

/-- C2: for every non-empty waiting list and every moment `now`, `reconcileWaitingList`
returns, the list it leaves holds the entries of the input (a permutation of it once
`EstimatedStart` is ignored), and in it the entries are in ascending order of `WaitingSince`:
whenever one entry stands before another, its `WaitingSince` is not after the other's. -/
theorem c2_sorted_by_waitingSince (now : Time) (e : WaitingListEntry)
    (es : List WaitingListEntry) :
    ∃ r, reconcileWaitingList now (e :: es) = .ok r ∧
      (r.map eraseEstimatedStart).Perm ((e :: es).map eraseEstimatedStart) ∧
      r.Pairwise (fun a b => a.WaitingSince ≤ b.WaitingSince) := by
  obtain ⟨first, rest, hs⟩ := sortFunc_cons_exists e es
  refine ⟨_, reconcileWaitingList_of_sorted now _ first rest hs, ?_, ?_⟩
  · have hperm := (sortFunc_perm cmpWaitingSince (e :: es)).map eraseEstimatedStart
    rw [hs] at hperm
    rw [List.map_cons, clampFirst_erase]
    exact hperm
  · have hsorted := sortFunc_sorted (e :: es)
    rw [hs, List.pairwise_cons] at hsorted
    rw [List.pairwise_cons]
    refine ⟨?_, hsorted.2⟩
    intro b hb
    rw [clampFirst_waitingSince]
    exact hsorted.1 b hb

/-- C3 (counterexample to the claim as stated): A (arrived `t0`, start `t0`, 30 min) and B
(arrived `t0+5m`, 20 min, with an earlier estimate `t0+2h` on record) reconciled at `t0`.
B keeps `t0+2h`, which is not `max(cursor, WaitingSince) = t0+30m`. -/
theorem c3_cursor_rule_counterexample :
    reconcileWaitingList t0 [entryA, entryBLate] = .ok [entryA, entryBLate] ∧
    entryBLate.EstimatedStart
      ≠ max (entryA.EstimatedStart + entryA.EstimatedDurationMinutes * Minute)
          entryBLate.WaitingSince ∧
    ¬ CursorRule [entryA, entryBLate] := by
  refine ⟨rfl, by decide, ?_⟩
  intro h
  unfold CursorRule at h
  rw [List.chain'_cons] at h
  exact absurd h.1 (by decide)

/-- C3 (amended): for every non-empty waiting list and every moment `now`, the pass returns,
and for each entry after the earliest (in `WaitingSince` order) the start its loop computes is
`max(previous EstimatedStart of the entry, cursor, WaitingSince)`, where the cursor is the
start computed for the entry before it (for the second entry: the start of the earliest
entry) plus that entry's duration; the other fields of the entry are kept.  For A (arrived
`t0`, start `t0`, 30 min) and B (arrived `t0+5m`, start `t0+5m`, 20 min) at `now = t0` the
start of A is `t0` and the start computed for B is `t0+30m`. -/
theorem c3_loop_computes_starts (now : Time) (e : WaitingListEntry)
    (es : List WaitingListEntry) :
    (∃ (sorted : List WaitingListEntry) (run : ReconcileRun) (first : WaitingListEntry),
      sorted.Perm (e :: es) ∧
      sorted.Pairwise (fun a b => a.WaitingSince ≤ b.WaitingSince) ∧
      reconcileRun now now (e :: es) = .ok run ∧
      run.WaitingList.head? = some first ∧
      run.loopEntries.length + 1 = sorted.length ∧
      ∀ (i : Nat) (prev entry : WaitingListEntry),
        (first :: run.loopEntries)[i]? = some prev → sorted[i + 1]? = some entry →
        ∃ c, run.loopEntries[i]? = some c ∧
          c.EstimatedStart
            = max (max entry.EstimatedStart (cursorAfter prev)) entry.WaitingSince ∧
          eraseEstimatedStart c = eraseEstimatedStart entry) ∧
    (∃ run, reconcileRun t0 t0 [entryA, entryB] = .ok run ∧
      run.WaitingList.head?.map (fun x => x.EstimatedStart) = some t0 ∧
      run.loopEntries.map (fun x => x.EstimatedStart) = [t0 + 30 * Minute]) := by
  refine ⟨?_, ⟨_, rfl, rfl, rfl⟩⟩
  obtain ⟨first, rest, hs⟩ := sortFunc_cons_exists e es
  obtain ⟨hlen, hall⟩ := rangeLoop_spec rest (clampFirst now now first)
  refine ⟨first :: rest, _, clampFirst now now first, ?_, ?_,
    reconcileRun_of_sorted now now _ first rest hs, rfl, by simp [hlen], ?_⟩
  · rw [← hs]; exact sortFunc_perm _ _
  · rw [← hs]; exact sortFunc_sorted _
  · intro i prev entry hp he
    rw [List.getElem?_cons_succ] at he
    exact hall i prev entry hp he

/-- C4: for every non-empty waiting list and every moment `now`, the pass returns and the
entry at the head of the resulting list is an earliest entry of the input (no entry has a
smaller `WaitingSince`) with `EstimatedStart = max(its previous EstimatedStart, its
WaitingSince, now)`, so not earlier than `now`; a single entry with `WaitingSince = t`,
`EstimatedStart = t - 1h` reconciled at `t + 2h` ends with `EstimatedStart = t + 2h`. -/
theorem c4_earliest_entry_start (now : Time) (e : WaitingListEntry)
    (es : List WaitingListEntry) :
    (∃ first first' rest,
      first ∈ e :: es ∧ (∀ x ∈ e :: es, first.WaitingSince ≤ x.WaitingSince) ∧
      reconcileWaitingList now (e :: es) = .ok (first' :: rest) ∧
      eraseEstimatedStart first' = eraseEstimatedStart first ∧
      first'.EstimatedStart = max (max first.EstimatedStart first.WaitingSince) now ∧
      now ≤ first'.EstimatedStart) ∧
    (∀ (t : Time) (id patient condition : String) (duration : Int),
      reconcileWaitingList (t + 120 * Minute)
          [{ Id := id, PatientId := patient, WaitingSince := t,
             EstimatedStart := t - 60 * Minute, EstimatedDurationMinutes := duration,
             ConditionCode := condition }]
        = .ok [{ Id := id, PatientId := patient, WaitingSince := t,
                 EstimatedStart := t + 120 * Minute, EstimatedDurationMinutes := duration,
                 ConditionCode := condition }]) := by
  constructor
  · obtain ⟨first, rest, hs⟩ := sortFunc_cons_exists e es
    have hperm := sortFunc_perm cmpWaitingSince (e :: es)
    have hsorted := sortFunc_sorted (e :: es)
    rw [hs] at hperm hsorted
    rw [List.pairwise_cons] at hsorted
    refine ⟨first, clampFirst now now first, rest, ?_, ?_,
      reconcileWaitingList_of_sorted now _ first rest hs, clampFirst_erase _ _ _,
      clampFirst_estimatedStart _ _, ?_⟩
    · exact hperm.mem_iff.1 (List.mem_cons_self _ _)
    · intro x hx
      rcases List.mem_cons.1 (hperm.mem_iff.2 hx) with hx1 | hx2
      · rw [hx1]
      · exact hsorted.1 x hx2
    · rw [clampFirst_estimatedStart]
      exact le_max_right _ _
  · intro t id patient condition duration
    have hs : sortFunc cmpWaitingSince
        [({ Id := id, PatientId := patient, WaitingSince := t,
            EstimatedStart := t - 60 * Minute, EstimatedDurationMinutes := duration,
            ConditionCode := condition } : WaitingListEntry)]
        = [{ Id := id, PatientId := patient, WaitingSince := t,
             EstimatedStart := t - 60 * Minute, EstimatedDurationMinutes := duration,
             ConditionCode := condition }] := rfl
    rw [reconcileWaitingList_of_sorted _ _ _ _ hs]
    have h1 : t - 60 * Minute < t := by unfold Minute; linarith
    have h2 : t < t + 120 * Minute := by unfold Minute; linarith
    simp [clampFirst, h1, h2]

/-- C5: monotonicity in the clock.  For every non-empty waiting list and all moments
`now₁ ≤ now₂`, both passes return lists of the same length, and at every position the
`EstimatedStart` of the list reconciled at `now₂` is not earlier than the `EstimatedStart` at
that position of the same list reconciled at `now₁`. -/
theorem c5_monotone_in_clock (now₁ now₂ : Time) (h : now₁ ≤ now₂) (e : WaitingListEntry)
    (es : List WaitingListEntry) :
    ∃ r₁ r₂, reconcileWaitingList now₁ (e :: es) = .ok r₁ ∧
      reconcileWaitingList now₂ (e :: es) = .ok r₂ ∧
      List.Forall₂ (fun a b => a.EstimatedStart ≤ b.EstimatedStart) r₁ r₂ := by
  obtain ⟨first, rest, hs⟩ := sortFunc_cons_exists e es
  refine ⟨_, _, reconcileWaitingList_of_sorted now₁ _ first rest hs,
    reconcileWaitingList_of_sorted now₂ _ first rest hs, ?_⟩
  refine List.Forall₂.cons (clampFirst_mono now₁ now₂ h first) ?_
  exact List.forall₂_same.2 (fun x _ => le_refl _)

/-- C5 at a concrete input: the list B, A, C reconciled at `t0` and at `t0 + 45 min`. -/
theorem c5_monotone_in_clock_witness :
    t0 ≤ t0 + 45 * Minute ∧
    ∃ r₁ r₂, reconcileWaitingList t0 [entryB, entryA, entryC] = .ok r₁ ∧
      reconcileWaitingList (t0 + 45 * Minute) [entryB, entryA, entryC] = .ok r₂ ∧
      List.Forall₂ (fun a b => a.EstimatedStart ≤ b.EstimatedStart) r₁ r₂ :=
  ⟨by decide, c5_monotone_in_clock t0 (t0 + 45 * Minute) (by decide) entryB [entryA, entryC]⟩

/-- C6: for every non-empty waiting list the pass returns, and once `EstimatedStart` is
ignored the resulting list is a permutation of the input list: no entry is added, removed or
duplicated, and every entry keeps its Id, PatientId, WaitingSince, EstimatedDurationMinutes
and condition. -/
theorem c6_permutation_up_to_estimatedStart (now : Time) (e : WaitingListEntry)
    (es : List WaitingListEntry) :
    ∃ r, reconcileWaitingList now (e :: es) = .ok r ∧
      (r.map eraseEstimatedStart).Perm ((e :: es).map eraseEstimatedStart) := by
  obtain ⟨first, rest, hs⟩ := sortFunc_cons_exists e es
  refine ⟨_, reconcileWaitingList_of_sorted now _ first rest hs, ?_⟩
  have hperm := (sortFunc_perm cmpWaitingSince (e :: es)).map eraseEstimatedStart
  rw [hs] at hperm
  rw [List.map_cons, clampFirst_erase]
  exact hperm

/-- C7: on an empty waiting list the pass does not return normally, it stops with the
run-time panic of indexing `WaitingList[0]` (index 0 out of range for length 0), at every
moment; on every non-empty list it returns normally. -/
theorem c7_empty_list_panics (now : Time) :
    reconcileWaitingList now [] = .error (.indexOutOfRange 0 0) ∧
    ∀ (e : WaitingListEntry) (es : List WaitingListEntry),
      ∃ r, reconcileWaitingList now (e :: es) = .ok r := by
  refine ⟨rfl, ?_⟩
  intro e es
  obtain ⟨first, rest, hs⟩ := sortFunc_cons_exists e es
  exact ⟨_, reconcileWaitingList_of_sorted now _ first rest hs⟩

/-- C10: for every non-empty waiting list the pass returns the entries in `WaitingSince`
order with every entry other than the earliest exactly as it was before the call, its
`EstimatedStart` included; only the `EstimatedStart` of the earliest entry can differ. -/
theorem c10_later_entries_untouched (now : Time) (e : WaitingListEntry)
    (es : List WaitingListEntry) :
    ∃ first first' rest,
      (first :: rest).Perm (e :: es) ∧
      (first :: rest).Pairwise (fun a b => a.WaitingSince ≤ b.WaitingSince) ∧
      reconcileWaitingList now (e :: es) = .ok (first' :: rest) ∧
      eraseEstimatedStart first' = eraseEstimatedStart first := by
  obtain ⟨first, rest, hs⟩ := sortFunc_cons_exists e es
  refine ⟨first, clampFirst now now first, rest, ?_, ?_,
    reconcileWaitingList_of_sorted now _ first rest hs, clampFirst_erase _ _ _⟩
  · rw [← hs]; exact sortFunc_perm _ _
  · rw [← hs]; exact sortFunc_sorted _

end AmbulanceWl

namespace DbService

open AmbulanceWl

/-! ## Facts about the codec and the store -/

theorem decodeTime_encodeTime (t : Int) (h : BsonExact t) : decodeTime (encodeTime t) = t := by
  obtain ⟨h1, h2, h3⟩ := h
  unfold decodeTime encodeTime wrapInt64
  norm_num at h2 h3 ⊢
  omega

theorem decodeEntry_encodeEntry (e : WaitingListEntry)
    (h : BsonExact e.WaitingSince ∧ BsonExact e.EstimatedStart) :
    decodeEntry (encodeEntry e) = e := by
  unfold decodeEntry encodeEntry
  simp [decodeTime_encodeTime _ h.1, decodeTime_encodeTime _ h.2]

theorem decodeAmbulance_encodeAmbulance (a : Ambulance) (h : WholeMillis a) :
    decodeAmbulance (encodeAmbulance a) = a := by
  have hlist : (a.WaitingList.map encodeEntry).map decodeEntry = a.WaitingList := by
    rw [List.map_map]
    conv_rhs => rw [← List.map_id a.WaitingList]
    apply List.map_congr_left
    intro e he
    exact decodeEntry_encodeEntry e (h e he)
  unfold decodeAmbulance encodeAmbulance
  simp [hlist]

theorem wholeMillis_ambulanceOne : WholeMillis ambulanceOne := by
  intro e he
  simp only [ambulanceOne, List.mem_cons, List.mem_singleton, List.not_mem_nil, or_false] at he
  rcases he with rfl | rfl <;> (unfold BsonExact; decide)

theorem findOne_eq_none_iff {B : Type} (idOf : B → String) (coll : List B) (id : String) :
    findOne idOf coll id = none ↔ ∀ d ∈ coll, idOf d ≠ id := by
  unfold findOne
  simp

theorem findOne_insertOne {D B : Type} (encode : D → B) (idOf : B → String) (coll : List B)
    (document : D) (h : findOne idOf coll (idOf (encode document)) = none) :
    findOne idOf (insertOne encode coll document) (idOf (encode document))
      = some (encode document) := by
  unfold findOne insertOne at *
  rw [List.find?_append, h]
  simp

/-! ## The claims about the store -/

/-- C8 (counterexamples to the claim as stated).  First: creating under the identifier
`amb-1` a document whose own `"id"` field is `amb-2` succeeds on the empty collection, and the
following `FindDocument("amb-1")` fails with `ErrNotFound`.  Second: creating `amb-3`, whose
entry has `WaitingSince` one nanosecond after a whole millisecond, succeeds, and the following
`FindDocument("amb-3")` succeeds with a document whose entry has the timestamp cut to the
millisecond, which is not equal to the document created. -/
theorem c8_round_trip_counterexample :
    ((CreateDocument encodeAmbulance StoredAmbulance.Id [] "amb-1" ambulanceTwo).1 = none ∧
     (FindDocument decodeAmbulance StoredAmbulance.Id
        (CreateDocument encodeAmbulance StoredAmbulance.Id [] "amb-1" ambulanceTwo).2
        "amb-1").1 = .error .ErrNotFound) ∧
    ((CreateDocument encodeAmbulance StoredAmbulance.Id [] "amb-3" ambulanceThree).1 = none ∧
     (FindDocument decodeAmbulance StoredAmbulance.Id
        (CreateDocument encodeAmbulance StoredAmbulance.Id [] "amb-3" ambulanceThree).2
        "amb-3").1
       = .ok { ambulanceThree with
                WaitingList := [{ entryFine with WaitingSince := t0 }] } ∧
     ({ ambulanceThree with WaitingList := [{ entryFine with WaitingSince := t0 }] } : Ambulance)
       ≠ ambulanceThree) := by
  refine ⟨⟨rfl, rfl⟩, rfl, rfl, by decide⟩

/-- C8 (amended): for every collection, every identifier and every document whose stored
`"id"` field equals that identifier and whose encoding decodes back to an equal value, if
`CreateDocument(id, doc)` succeeds then the following `FindDocument(id)` succeeds and returns
a value equal to `doc`. -/
theorem c8_round_trip {D B : Type} (encode : D → B) (decode : B → D) (idOf : B → String)
    (coll : List B) (id : String) (document : D) (hid : idOf (encode document) = id)
    (hcodec : decode (encode document) = document)
    (hcreate : (CreateDocument encode idOf coll id document).1 = none) :
    (FindDocument decode idOf (CreateDocument encode idOf coll id document).2 id).1
      = .ok document := by
  subst hid
  unfold CreateDocument at hcreate ⊢
  cases hf : findOne idOf coll (idOf (encode document)) with
  | some d => rw [hf] at hcreate; simp at hcreate
  | none =>
    simp only [hf]
    unfold FindDocument
    rw [findOne_insertOne encode idOf coll document hf]
    simp only [hcodec]

/-- C8 (amended) at a concrete input: `amb-1`, with two waiting entries whose timestamps are
whole milliseconds, created next to the stored `amb-2` and read back. -/
theorem c8_round_trip_witness :
    StoredAmbulance.Id (encodeAmbulance ambulanceOne) = "amb-1" ∧
    decodeAmbulance (encodeAmbulance ambulanceOne) = ambulanceOne ∧
    (CreateDocument encodeAmbulance StoredAmbulance.Id [encodeAmbulance ambulanceTwo]
        "amb-1" ambulanceOne).1 = none ∧
    (FindDocument decodeAmbulance StoredAmbulance.Id
        (CreateDocument encodeAmbulance StoredAmbulance.Id [encodeAmbulance ambulanceTwo]
          "amb-1" ambulanceOne).2 "amb-1").1
      = .ok ambulanceOne :=
  ⟨rfl, decodeAmbulance_encodeAmbulance ambulanceOne wholeMillis_ambulanceOne, rfl,
   c8_round_trip encodeAmbulance decodeAmbulance StoredAmbulance.Id
     [encodeAmbulance ambulanceTwo] "amb-1" ambulanceOne rfl
     (decodeAmbulance_encodeAmbulance ambulanceOne wholeMillis_ambulanceOne) rfl⟩

/-- C9: with a working backend, `CreateDocument(id, doc)` returns `ErrConflict` when a
document with that id is stored, and `FindDocument(id)`, `UpdateDocument(id, doc)` and
`DeleteDocument(id)` each return `ErrNotFound` when no stored document has that id; in all
four cases the collection is left as it was. -/
theorem c9_conflict_and_not_found {D B : Type} (encode : D → B) (decode : B → D)
    (idOf : B → String) (coll : List B) (id : String) (document : D) :
    ((∃ d ∈ coll, idOf d = id) →
      CreateDocument encode idOf coll id document = (some .ErrConflict, coll)) ∧
    ((∀ d ∈ coll, idOf d ≠ id) →
      FindDocument decode idOf coll id = (.error .ErrNotFound, coll) ∧
      UpdateDocument encode idOf coll id document = (some .ErrNotFound, coll) ∧
      DeleteDocument idOf coll id = (some .ErrNotFound, coll)) := by
  constructor
  · intro hex
    unfold CreateDocument
    cases hf : findOne idOf coll id with
    | some d => rfl
    | none =>
      obtain ⟨d, hd, hdid⟩ := hex
      exact absurd hdid ((findOne_eq_none_iff idOf coll id).1 hf d hd)
  · intro hall
    have hf := (findOne_eq_none_iff idOf coll id).2 hall
    unfold FindDocument UpdateDocument DeleteDocument
    rw [hf]
    exact ⟨rfl, rfl, rfl⟩

/-- C9 at a concrete input: the collection holding `amb-1`; creating `amb-1` again, and
finding, updating and deleting the absent `amb-2`. -/
theorem c9_conflict_and_not_found_witness :
    (∃ d ∈ [encodeAmbulance ambulanceOne], d.Id = "amb-1") ∧
    CreateDocument encodeAmbulance StoredAmbulance.Id [encodeAmbulance ambulanceOne] "amb-1"
        ambulanceOne
      = (some .ErrConflict, [encodeAmbulance ambulanceOne]) ∧
    (∀ d ∈ [encodeAmbulance ambulanceOne], d.Id ≠ "amb-2") ∧
    FindDocument decodeAmbulance StoredAmbulance.Id [encodeAmbulance ambulanceOne] "amb-2"
      = (.error .ErrNotFound, [encodeAmbulance ambulanceOne]) ∧
    UpdateDocument encodeAmbulance StoredAmbulance.Id [encodeAmbulance ambulanceOne] "amb-2"
        ambulanceTwo
      = (some .ErrNotFound, [encodeAmbulance ambulanceOne]) ∧
    DeleteDocument StoredAmbulance.Id [encodeAmbulance ambulanceOne] "amb-2"
      = (some .ErrNotFound, [encodeAmbulance ambulanceOne]) :=
  have hex : ∃ d ∈ [encodeAmbulance ambulanceOne], d.Id = "amb-1" :=
    ⟨encodeAmbulance ambulanceOne, by simp, rfl⟩
  have hall : ∀ d ∈ [encodeAmbulance ambulanceOne], d.Id ≠ "amb-2" := by
    intro d hd
    rw [List.mem_singleton.1 hd]
    decide
  ⟨hex,
   (c9_conflict_and_not_found encodeAmbulance decodeAmbulance StoredAmbulance.Id
      [encodeAmbulance ambulanceOne] "amb-1" ambulanceOne).1 hex,
   hall,
   (c9_conflict_and_not_found encodeAmbulance decodeAmbulance StoredAmbulance.Id
      [encodeAmbulance ambulanceOne] "amb-2" ambulanceTwo).2 hall⟩

end DbService
